import Mathlib

set_option autoImplicit false

/-!
Verification development for the driftpyrs synchronization layer.

The compiled extension module `driftpyrs` is exercised by the Python files
under `examples/`; the cache, session and math components themselves live in
the extension, so the definitions below are shallow embeddings modelled from
the specification's component contracts (each such definition says so in its
doc comment).
-/

/-- Modelled from the spec: a decoded cache value ("a decoded record or
scalar") with more than one field, so that the no-tearing property — a read
never mixes fields of two different writes — can be stated. -/
structure DemoValue where
  px : Int
  slot : Nat
  deriving DecidableEq

/-- Modelled from the spec: `ConcurrentStateCache`, a key → value store in
which a `put` replaces the prior value atomically as a whole.  The shallow
embedding is a sequential association list with unique keys: each operation
is one atomic step, which is exactly the serialization the spec's atomicity
contract promises to readers. -/
structure ConcurrentStateCache (V : Type) where
  entries : List (String × V)
  deriving DecidableEq

namespace ConcurrentStateCache

/-- Modelled from the spec: the cache of a freshly constructed session holds
no entries. -/
def empty {V : Type} : ConcurrentStateCache V := ⟨[]⟩

/-- Remove every entry for key `k` from the underlying entry list. -/
def removeList {V : Type} (k : String) : List (String × V) → List (String × V)
  | [] => []
  | e :: es => if e.1 = k then removeList k es else e :: removeList k es

/-- Look up the first entry for key `k` in the underlying entry list. -/
def getList {V : Type} (k : String) : List (String × V) → Option V
  | [] => none
  | e :: es => if e.1 = k then some e.2 else getList k es

/-- Modelled from the spec: `get(key)` — returns the current value for the
key, or absent as a normal (non-error) result. -/
def get {V : Type} (c : ConcurrentStateCache V) (k : String) : Option V :=
  getList k c.entries

/-- Modelled from the spec: `put(key, value)` — atomically installs `value`
as the current value for `key`, replacing any prior value as a whole. -/
def put {V : Type} (c : ConcurrentStateCache V) (k : String) (v : V) :
    ConcurrentStateCache V :=
  ⟨(k, v) :: removeList k c.entries⟩

/-- Modelled from the spec: `remove(key)` — atomic removal of one entry. -/
def remove {V : Type} (c : ConcurrentStateCache V) (k : String) :
    ConcurrentStateCache V :=
  ⟨removeList k c.entries⟩

/-- Modelled from the spec: `clear()` — atomic removal of all entries; a
point event after which only subsequent `put`s are visible. -/
def clear {V : Type} (_ : ConcurrentStateCache V) : ConcurrentStateCache V :=
  ⟨[]⟩

/-- Modelled from the spec: `keys()` — the set of keys currently present. -/
def keys {V : Type} (c : ConcurrentStateCache V) : List String :=
  c.entries.map Prod.fst

/-- Modelled from the spec: `len()` — the number of entries. -/
def len {V : Type} (c : ConcurrentStateCache V) : Nat :=
  c.entries.length

/-- Modelled from the spec: `is_empty()` — whether the cache has no entries. -/
def is_empty {V : Type} (c : ConcurrentStateCache V) : Bool :=
  c.entries.isEmpty

end ConcurrentStateCache

/-- Modelled from the spec: the mutating operations a session's writers and
callers may issue against one cache (reads do not change the state). -/
inductive CacheOp (V : Type) where
  | put (k : String) (v : V)
  | remove (k : String)
  | clear
  deriving DecidableEq

namespace CacheOp

/-- Whether the operation can change what `get k` observes for key `k`. -/
def touches {V : Type} (k : String) : CacheOp V → Bool
  | .put k' _ => k' == k
  | .remove k' => k' == k
  | .clear => true

/-- Whether the operation writes key `k`. -/
def putsKey {V : Type} (k : String) : CacheOp V → Bool
  | .put k' _ => k' == k
  | _ => false

/-- Whether the operation is a `put` (of any key). -/
def isPut {V : Type} : CacheOp V → Bool
  | .put _ _ => true
  | _ => false

end CacheOp

/-- Apply one operation to the cache. -/
def applyOp {V : Type} (c : ConcurrentStateCache V) : CacheOp V → ConcurrentStateCache V
  | .put k v => c.put k v
  | .remove k => c.remove k
  | .clear => c.clear

/-- Run a sequence of operations against the cache, oldest first.  This is
the serialization of all completed writes the spec's ordering guarantees
promise to a reader. -/
def run {V : Type} (c : ConcurrentStateCache V) (ops : List (CacheOp V)) :
    ConcurrentStateCache V :=
  ops.foldl applyOp c

/-- Modelled from the spec: two independently constructed `SessionManager`s
own disjoint caches; an operation is addressed to exactly one of the two
sessions (`true` = first session, `false` = second). -/
def applySession {V : Type}
    (p : ConcurrentStateCache V × ConcurrentStateCache V)
    (tagged : Bool × CacheOp V) :
    ConcurrentStateCache V × ConcurrentStateCache V :=
  if tagged.1 then (applyOp p.1 tagged.2, p.2) else (p.1, applyOp p.2 tagged.2)

/-- Run a sequence of session-addressed operations over a pair of sessions. -/
def runSessions {V : Type}
    (p : ConcurrentStateCache V × ConcurrentStateCache V)
    (ops : List (Bool × CacheOp V)) :
    ConcurrentStateCache V × ConcurrentStateCache V :=
  ops.foldl applySession p

/-- Modelled from the spec: the `CacheDemo` background update task, which
once started performs a repeating cycle writing an increasing counter into
the key "counter" (scenario: the value "1" after one interval, "2" after the
next).  `demoCache t` is the cache state after `t` completed update cycles;
at `t = 0` no update has run and the cache is the fresh session's empty
cache. -/
def demoCache : Nat → ConcurrentStateCache Nat
  | 0 => ConcurrentStateCache.empty
  | t + 1 => (demoCache t).put "counter" (t + 1)

/-- Modelled from the spec: the closed, known enumeration of contexts a
`connect` call validates its `context` argument against ("mainnet" and
"devnet" in the observed usage). -/
inductive DriftContext where
  | mainnet
  | devnet
  deriving DecidableEq

/-- Modelled from the spec: validation of a context name against the known
enumerated set; any other name is unrecognized. -/
def parseContext : String → Option DriftContext
  | "mainnet" => some DriftContext.mainnet
  | "devnet" => some DriftContext.devnet
  | _ => none

/-- Modelled from the spec: the two distinct failure kinds of `connect` — a
configuration-kind error (unrecognized context, surfaced as a `ValueError`)
and a connection-kind error (transport/handshake failure). -/
inductive ConnectFailure where
  | configError (badContext : String)
  | connectError (msg : String)
  deriving DecidableEq

/-- Whether a failure is the configuration kind. -/
def ConnectFailure.isConfig : ConnectFailure → Bool
  | .configError _ => true
  | .connectError _ => false

/-- Modelled from the spec: a ready `SessionManager` produced by `connect` —
it remembers its endpoint and validated context and has discovered the
addressable entity space (the perp market count). -/
structure SessionManager where
  endpoint : String
  context : DriftContext
  perpMarketCount : Nat
  deriving DecidableEq

/-- Modelled from the spec: the outcome the opaque network collaborator
would produce if the handshake were attempted. -/
inductive NetOutcome where
  | ok (perpMarketCount : Nat)
  | failed (msg : String)
  deriving DecidableEq

/-- The result of a `connect` call together with how many network attempts
it made before returning. -/
structure ConnectResult where
  outcome : Except ConnectFailure SessionManager
  networkAttempts : Nat

/-- Modelled from the spec: `connect(endpoint, context)` — validates the
context against the closed enumeration before attempting any network I/O
(fail fast); only with a recognized context does it perform the handshake,
whose failure is the distinct connection-kind error. -/
def connect (endpoint contextName : String) (net : NetOutcome) : ConnectResult :=
  match parseContext contextName with
  | none => ⟨Except.error (ConnectFailure.configError contextName), 0⟩
  | some ctx =>
    match net with
    | .ok n => ⟨Except.ok ⟨endpoint, ctx, n⟩, 1⟩
    | .failed m => ⟨Except.error (ConnectFailure.connectError m), 1⟩

/-- Modelled from the spec: the standardization/rounding collaborator.
Given a raw value and a step size, rounds to a multiple of the step with a
direction policy: a "long" intent rounds down (the direction favouring the
buyer for a price), a "short" intent rounds the opposite way (up); step = 0
is defined as an error (absent result), and an unknown side name is not in
the function's contract. -/
def standardize_price (value : Int) (step : Nat) (side : String) : Option Int :=
  if step = 0 then none
  else if side = "long" then some ((value / (step : Int)) * step)
  else if side = "short" then some (-((-value) / (step : Int)) * step)
  else none

/-- Modelled from the spec: a derived address is determined by the program
identity and the seed components; the one-way hash of the real derivation is
modelled as the injective identity on the seed tuple, realizing the spec's
collision-avoidance expectation for distinct seed tuples. -/
structure DerivedAddress where
  programId : String
  seeds : List (List Nat)
  deriving DecidableEq

/-- The program identity all drift address derivations hash over. -/
def drift_program_id : String := "dRiftyHA39MWEi3m9aunc5MzRF1JYuBsbn6VPcn33UH"

/-- A fixed string seed component, as its byte values. -/
def strSeed (s : String) : List Nat := s.toList.map Char.toNat

/-- A numeric seed component encoded as two little-endian bytes (the
sub-account id is a 16-bit integer). -/
def u16le (n : Nat) : List Nat := [n % 256, n / 256 % 256]

/-- Modelled from the spec: `derive_user_account(authority, sub_account_id)`
— a deterministic derivation from the program identity, the fixed string
seed "user", the authority, and the numeric sub-account seed. -/
def derive_user_account (authority : String) (subAccountId : Nat) : DerivedAddress :=
  ⟨drift_program_id, [strSeed "user", strSeed authority, u16le subAccountId]⟩

/-- Modelled from the spec: `derive_stats_account(authority)` — a
deterministic derivation from the program identity, the fixed string seed
"user_stats", and the authority. -/
def derive_stats_account (authority : String) : DerivedAddress :=
  ⟨drift_program_id, [strSeed "user_stats", strSeed authority]⟩

/-- Modelled from the spec: the pyth_lazer feed table lives in the compiled
extension; it is modelled as one shared finite table of
(perp market index, feed id) pairs, over which both mapping directions are
lookups.  `feed_id_to_perp_market_index` returns the market index of the
first entry with the given feed id, or absent (not an error) when no entry
matches. -/
def feed_id_to_perp_market_index (table : List (Nat × Nat)) (feedId : Nat) :
    Option Nat :=
  (table.find? (fun e => e.2 == feedId)).map Prod.fst

/-- Modelled from the spec: the other direction of the shared feed table —
the feed id of the first entry with the given perp market index, or absent
when no entry matches. -/
def perp_market_index_to_feed_id (table : List (Nat × Nat)) (marketIndex : Nat) :
    Option Nat :=
  (table.find? (fun e => e.1 == marketIndex)).map Prod.snd

-- Helper lemmas about the cache operations.

namespace ConcurrentStateCache

@[simp]
theorem getList_removeList_self {V : Type} (k : String) (l : List (String × V)) :
    getList k (removeList k l) = none := by
  induction l with
  | nil => rfl
  | cons e es ih =>
    by_cases h : e.1 = k <;> simp [removeList, getList, h, ih]

theorem getList_removeList_ne {V : Type} {k k' : String} (l : List (String × V))
    (h : k' ≠ k) : getList k' (removeList k l) = getList k' l := by
  induction l with
  | nil => rfl
  | cons e es ih =>
    by_cases hek : e.1 = k
    · have : e.1 ≠ k' := by
        intro hk'; exact h (hk'.symm.trans hek)
      simp [removeList, getList, hek, this, ih, Ne.symm h]
    · by_cases hek' : e.1 = k' <;>
        simp [removeList, getList, hek, hek', ih, h, Ne.symm h]

@[simp]
theorem get_put_self {V : Type} (c : ConcurrentStateCache V) (k : String) (v : V) :
    (c.put k v).get k = some v := by
  simp [get, put, getList]

theorem get_put_ne {V : Type} (c : ConcurrentStateCache V) {k k' : String} (v : V)
    (h : k' ≠ k) : (c.put k v).get k' = c.get k' := by
  have hk : k ≠ k' := fun hkk => h hkk.symm
  simp [get, put, getList, hk, getList_removeList_ne _ h]

theorem get_remove {V : Type} (c : ConcurrentStateCache V) (k k' : String) :
    (c.remove k).get k' = if k' = k then none else c.get k' := by
  by_cases h : k' = k
  · subst h; simp [get, remove]
  · simp [get, remove, h, getList_removeList_ne _ h]

@[simp]
theorem get_clear {V : Type} (c : ConcurrentStateCache V) (k : String) :
    (c.clear).get k = none := rfl

@[simp]
theorem get_empty {V : Type} (k : String) :
    (empty : ConcurrentStateCache V).get k = none := rfl

end ConcurrentStateCache

open ConcurrentStateCache in
/-- An operation that does not touch key `k` leaves `get k` unchanged. -/
theorem applyOp_get_of_not_touches {V : Type} (c : ConcurrentStateCache V)
    (op : CacheOp V) (k : String) (h : op.touches k = false) :
    (applyOp c op).get k = c.get k := by
  cases op with
  | put k' v =>
    have hk : k' ≠ k := by simpa [CacheOp.touches] using h
    exact get_put_ne c v (fun hkk => hk hkk.symm)
  | remove k' =>
    have hk : k' ≠ k := by simpa [CacheOp.touches] using h
    show (c.remove k').get k = c.get k
    rw [get_remove]
    simp [Ne.symm hk]
  | clear => simp [CacheOp.touches] at h

/-- A run of operations none of which touches `k` leaves `get k` unchanged. -/
theorem run_get_of_not_touches {V : Type} (c : ConcurrentStateCache V)
    (ops : List (CacheOp V)) (k : String)
    (h : ∀ op ∈ ops, op.touches k = false) :
    (run c ops).get k = c.get k := by
  induction ops generalizing c with
  | nil => rfl
  | cons op rest ih =>
    have h1 : op.touches k = false := h op (List.mem_cons_self ..)
    have h2 : ∀ o ∈ rest, CacheOp.touches k o = false :=
      fun o ho => h o (List.mem_cons_of_mem _ ho)
    calc (run c (op :: rest)).get k
        = (run (applyOp c op) rest).get k := rfl
      _ = (applyOp c op).get k := ih _ h2
      _ = c.get k := applyOp_get_of_not_touches c op k h1

/-- C1: after `put(k, v1)` then `put(k, v2)` have completed, any subsequent
`get(k)` — even after further operations on other keys — returns exactly
`v2`: never `v1`, and every field of the observed value is the corresponding
field of `v2` (no tearing). -/
theorem cache_put_put_atomic (c : ConcurrentStateCache DemoValue) (k : String)
    (v1 v2 : DemoValue) (ops : List (CacheOp DemoValue))
    (h : ∀ op ∈ ops, op.touches k = false) :
    (run ((c.put k v1).put k v2) ops).get k = some v2 ∧
    ∀ w, (run ((c.put k v1).put k v2) ops).get k = some w →
      w.px = v2.px ∧ w.slot = v2.slot := by
  have hg : (run ((c.put k v1).put k v2) ops).get k = some v2 := by
    rw [run_get_of_not_touches _ _ _ h]
    simp
  refine ⟨hg, fun w hw => ?_⟩
  rw [hg] at hw
  cases hw
  exact ⟨rfl, rfl⟩

/-- C1 witness: a concrete double write to key "market" followed by an
unrelated write; the read observes the second value whole. -/
theorem cache_put_put_atomic_witness :
    (∀ op ∈ [CacheOp.put "other" (DemoValue.mk 9 9)],
      op.touches "market" = false) ∧
    (run ((ConcurrentStateCache.empty.put "market" (DemoValue.mk 1 10)).put
        "market" (DemoValue.mk 2 20))
      [CacheOp.put "other" (DemoValue.mk 9 9)]).get "market" =
      some (DemoValue.mk 2 20) :=
  ⟨by decide,
   (cache_put_put_atomic ConcurrentStateCache.empty "market"
      (DemoValue.mk 1 10) (DemoValue.mk 2 20)
      [CacheOp.put "other" (DemoValue.mk 9 9)] (by decide)).1⟩

/-- A non-`put` operation applied to a cache with no entries leaves it with
no entries. -/
theorem applyOp_entries_nil {V : Type} (c : ConcurrentStateCache V)
    (op : CacheOp V) (hc : c.entries = []) (hop : op.isPut = false) :
    (applyOp c op).entries = [] := by
  cases op with
  | put k v => simp [CacheOp.isPut] at hop
  | remove k =>
    show (c.remove k).entries = []
    simp [ConcurrentStateCache.remove, hc, ConcurrentStateCache.removeList]
  | clear => rfl

/-- A run of non-`put` operations over a cache with no entries leaves it
with no entries. -/
theorem run_entries_nil {V : Type} (c : ConcurrentStateCache V)
    (ops : List (CacheOp V)) (hc : c.entries = [])
    (h : ∀ op ∈ ops, op.isPut = false) : (run c ops).entries = [] := by
  induction ops generalizing c with
  | nil => exact hc
  | cons op rest ih =>
    exact ih (applyOp c op)
      (applyOp_entries_nil c op hc (h op (List.mem_cons_self ..)))
      (fun o ho => h o (List.mem_cons_of_mem _ ho))

/-- C2: immediately after `clear()` returns, `is_empty()` is true and
`len()` equals 0, and both remain so across any further operations that are
not a `put` on that cache. -/
theorem clear_empty_durable {V : Type} (c : ConcurrentStateCache V)
    (ops : List (CacheOp V)) (h : ∀ op ∈ ops, op.isPut = false) :
    (run (c.clear) ops).is_empty = true ∧ (run (c.clear) ops).len = 0 := by
  have hnil : (run (c.clear) ops).entries = [] :=
    run_entries_nil (c.clear) ops rfl h
  simp [ConcurrentStateCache.is_empty, ConcurrentStateCache.len, hnil]

/-- C2 witness: clearing a populated cache and then removing a key keeps the
cache empty with length 0. -/
theorem clear_empty_durable_witness :
    (∀ op ∈ [CacheOp.remove "x", (CacheOp.clear : CacheOp Nat)],
      op.isPut = false) ∧
    ((run ((ConcurrentStateCache.empty.put "counter" 7).clear)
        [CacheOp.remove "x", CacheOp.clear]).is_empty = true ∧
     (run ((ConcurrentStateCache.empty.put "counter" 7).clear)
        [CacheOp.remove "x", CacheOp.clear]).len = 0) :=
  ⟨by decide,
   clear_empty_durable (ConcurrentStateCache.empty.put "counter" 7)
     [CacheOp.remove "x", CacheOp.clear] (by decide)⟩

/-- A run of operations all addressed to the first session leaves the
second session's cache untouched. -/
theorem runSessions_snd {V : Type}
    (p : ConcurrentStateCache V × ConcurrentStateCache V)
    (ops : List (Bool × CacheOp V)) (h : ∀ e ∈ ops, e.1 = true) :
    (runSessions p ops).2 = p.2 := by
  induction ops generalizing p with
  | nil => rfl
  | cons e rest ih =>
    have he : e.1 = true := h e (List.mem_cons_self ..)
    have hr : ∀ x ∈ rest, x.1 = true := fun x hx => h x (List.mem_cons_of_mem _ hx)
    calc (runSessions p (e :: rest)).2
        = (runSessions (applySession p e) rest).2 := rfl
      _ = (applySession p e).2 := ih _ hr
      _ = p.2 := by simp [applySession, he]

/-- C3: operations addressed to one session — clearing it included — never
change the other session's contents: its `len()` and every `get` are
unchanged. -/
theorem sessions_isolated {V : Type}
    (p : ConcurrentStateCache V × ConcurrentStateCache V)
    (ops : List (Bool × CacheOp V)) (h : ∀ e ∈ ops, e.1 = true) :
    (runSessions p ops).2 = p.2 ∧
    (runSessions p ops).2.len = p.2.len ∧
    ∀ k, (runSessions p ops).2.get k = p.2.get k := by
  have hs := runSessions_snd p ops h
  exact ⟨hs, by rw [hs], fun k => by rw [hs]⟩

/-- C3 witness: clearing the first of two concrete sessions leaves the
second session's cache — holding the key "b" — exactly as it was. -/
theorem sessions_isolated_witness :
    (∀ e ∈ [((true, CacheOp.clear) : Bool × CacheOp Nat)], e.1 = true) ∧
    (runSessions (ConcurrentStateCache.empty.put "a" 1,
        ConcurrentStateCache.empty.put "b" 2) [(true, CacheOp.clear)]).2 =
      ConcurrentStateCache.empty.put "b" 2 :=
  ⟨by decide,
   (sessions_isolated (ConcurrentStateCache.empty.put "a" 1,
      ConcurrentStateCache.empty.put "b" 2)
      [(true, CacheOp.clear)] (by decide)).1⟩

/-- C4: for any context name outside the known enumeration, `connect` fails
with the configuration-kind error naming that context, makes zero network
attempts, and that error is distinguishable from every connection-kind
failure. -/
theorem connect_invalid_context (endpoint ctxName : String) (net : NetOutcome)
    (h : parseContext ctxName = none) :
    (connect endpoint ctxName net).networkAttempts = 0 ∧
    (connect endpoint ctxName net).outcome =
      Except.error (ConnectFailure.configError ctxName) ∧
    (ConnectFailure.configError ctxName).isConfig = true ∧
    ∀ m, ConnectFailure.configError ctxName ≠ ConnectFailure.connectError m := by
  refine ⟨?_, ?_, rfl, fun m hm => ConnectFailure.noConfusion hm⟩ <;>
    simp [connect, h]

/-- C4 witness: connecting with the context "invalid" makes no network
attempt and fails with the configuration-kind error. -/
theorem connect_invalid_context_witness :
    parseContext "invalid" = none ∧
    (connect "https://api.mainnet-beta.solana.com" "invalid"
      (NetOutcome.ok 50)).networkAttempts = 0 :=
  ⟨by decide,
   (connect_invalid_context "https://api.mainnet-beta.solana.com" "invalid"
      (NetOutcome.ok 50) (by decide)).1⟩

/-- An operation that does not write key `k` preserves absence of `k`. -/
theorem applyOp_get_none {V : Type} (c : ConcurrentStateCache V)
    (op : CacheOp V) (k : String) (hc : c.get k = none)
    (hop : op.putsKey k = false) : (applyOp c op).get k = none := by
  cases op with
  | put k' v =>
    have hk : k' ≠ k := by simpa [CacheOp.putsKey] using hop
    show (c.put k' v).get k = none
    rw [ConcurrentStateCache.get_put_ne c v (Ne.symm hk)]
    exact hc
  | remove k' =>
    show (c.remove k').get k = none
    rw [ConcurrentStateCache.get_remove]
    split
    · rfl
    · exact hc
  | clear => rfl

/-- A run of operations none of which writes `k` preserves absence of `k`. -/
theorem run_get_none {V : Type} (c : ConcurrentStateCache V)
    (ops : List (CacheOp V)) (k : String) (hc : c.get k = none)
    (h : ∀ op ∈ ops, op.putsKey k = false) : (run c ops).get k = none := by
  induction ops generalizing c with
  | nil => exact hc
  | cons op rest ih =>
    exact ih (applyOp c op)
      (applyOp_get_none c op k hc (h op (List.mem_cons_self ..)))
      (fun o ho => h o (List.mem_cons_of_mem _ ho))

/-- C5: on a session whose history never wrote key `k`, `get(k)` returns
absent as a normal result at any time, and the fresh session starts with
`is_empty()` true and `len()` 0. -/
theorem never_written_get_none {V : Type} (ops : List (CacheOp V)) (k : String)
    (h : ∀ op ∈ ops, op.putsKey k = false) :
    (run ConcurrentStateCache.empty ops).get k = none ∧
    (ConcurrentStateCache.empty : ConcurrentStateCache V).is_empty = true ∧
    (ConcurrentStateCache.empty : ConcurrentStateCache V).len = 0 :=
  ⟨run_get_none ConcurrentStateCache.empty ops k rfl h, rfl, rfl⟩

/-- C5 witness: a history writing only the key "other" leaves
`get("counter")` absent. -/
theorem never_written_get_none_witness :
    (∀ op ∈ [CacheOp.put "other" (5 : Nat), CacheOp.clear, CacheOp.remove "x"],
      op.putsKey "counter" = false) ∧
    (run ConcurrentStateCache.empty
      [CacheOp.put "other" (5 : Nat), CacheOp.clear,
       CacheOp.remove "x"]).get "counter" = none :=
  ⟨by decide,
   (never_written_get_none
      [CacheOp.put "other" (5 : Nat), CacheOp.clear, CacheOp.remove "x"]
      "counter" (by decide)).1⟩

/-- The demo cache holds the tick count under "counter" after every
completed update cycle, and nothing before the first. -/
theorem demoCache_get (t : Nat) :
    (demoCache t).get "counter" = if t = 0 then none else some t := by
  cases t with
  | zero => rfl
  | succ n => simp [demoCache]

/-- C6: once the background updates have started, reads of the
counter-tagged key are non-decreasing: a read completed at (or before) the
time of a second read never observes a larger counter than the second. -/
theorem counter_reads_monotone (t1 t2 c1 c2 : Nat) (hle : t1 ≤ t2)
    (h1 : (demoCache t1).get "counter" = some c1)
    (h2 : (demoCache t2).get "counter" = some c2) : c1 ≤ c2 := by
  rw [demoCache_get] at h1 h2
  by_cases e1 : t1 = 0
  · simp [e1] at h1
  · simp [e1] at h1
    by_cases e2 : t2 = 0
    · omega
    · simp [e2] at h2
      omega

/-- C6 witness: the counter read after one update cycle is at most the
counter read after three cycles. -/
theorem counter_reads_monotone_witness :
    (demoCache 1).get "counter" = some 1 ∧
    (demoCache 3).get "counter" = some 3 ∧ (1 : Nat) ≤ 3 :=
  ⟨by decide, by decide,
   counter_reads_monotone 1 3 1 3 (by decide) (by decide) (by decide)⟩

/-- C7: for every raw value and nonzero step, both the "long" and the
"short" standardization results exist, each is an exact integer multiple of
the step, and the "long" result never exceeds the "short" result. -/
theorem standardize_price_long_le_short (value : Int) (step : Nat)
    (h : step ≠ 0) :
    ∃ l s, standardize_price value step "long" = some l ∧
      standardize_price value step "short" = some s ∧
      (step : Int) ∣ l ∧ (step : Int) ∣ s ∧ l ≤ s := by
  have hb : ((step : Nat) : Int) ≠ 0 := by exact_mod_cast h
  refine ⟨(value / (step : Int)) * step, -((-value) / (step : Int)) * step,
    ?_, ?_, dvd_mul_left _ _, dvd_mul_left _ _, ?_⟩
  · simp [standardize_price, h]
  · simp [standardize_price, h]
  · have h1 := Int.ediv_add_emod value (step : Int)
    have h2 := Int.emod_nonneg value hb
    have h3 := Int.ediv_add_emod (-value) (step : Int)
    have h4 := Int.emod_nonneg (-value) hb
    have hc1 : (value / (step : Int)) * step = (step : Int) * (value / step) :=
      mul_comm _ _
    have hc2 : ((-value) / (step : Int)) * step = (step : Int) * ((-value) / step) :=
      mul_comm _ _
    linarith [h1, h2, h3, h4, hc1, hc2]

/-- C7 witness: at value 1000500 and step 1000 both sides standardize to
multiples of 1000 with the "long" result at most the "short" result. -/
theorem standardize_price_long_le_short_witness :
    (1000 : Nat) ≠ 0 ∧
    ∃ l s, standardize_price 1000500 1000 "long" = some l ∧
      standardize_price 1000500 1000 "short" = some s ∧
      ((1000 : Nat) : Int) ∣ l ∧ ((1000 : Nat) : Int) ∣ s ∧ l ≤ s :=
  ⟨by decide, standardize_price_long_le_short 1000500 1000 (by decide)⟩

/-- C8: address derivation is deterministic — the same authority and
sub-account always derive the same address, and the stats derivation is
likewise a function of its inputs — while two sub-account ids that differ
(within the 16-bit range of the numeric seed) derive different addresses. -/
theorem derive_account_deterministic_distinct (a : String) (s s' : Nat)
    (hs : s < 65536) (hs' : s' < 65536) (hne : s ≠ s') :
    derive_user_account a s = derive_user_account a s ∧
    derive_stats_account a = derive_stats_account a ∧
    derive_user_account a s ≠ derive_user_account a s' := by
  refine ⟨rfl, rfl, fun hcontra => ?_⟩
  simp [derive_user_account, u16le] at hcontra
  omega

/-- C8 witness: the observed authority derives distinct user accounts for
sub-accounts 0 and 1. -/
theorem derive_account_deterministic_distinct_witness :
    derive_user_account "J1TnP8zvVxbtF5KFp5xRmWuvG9McnhzmBd9XGfCyuxFP" 0 ≠
    derive_user_account "J1TnP8zvVxbtF5KFp5xRmWuvG9McnhzmBd9XGfCyuxFP" 1 :=
  (derive_account_deterministic_distinct
    "J1TnP8zvVxbtF5KFp5xRmWuvG9McnhzmBd9XGfCyuxFP" 0 1
    (by decide) (by decide) (by decide)).2.2

/-- C10: over a shared feed table in which each feed id belongs to exactly
one market, the two pyth_lazer mapping directions are partial inverses — a
market's feed id maps back to that market — and a feed id absent from the
table maps to absent (a normal result, not an error). -/
theorem pyth_lazer_mapping_partial_inverse (table : List (Nat × Nat))
    (hnd : (table.map Prod.snd).Nodup) :
    (∀ m f, perp_market_index_to_feed_id table m = some f →
      feed_id_to_perp_market_index table f = some m) ∧
    (∀ f, f ∉ table.map Prod.snd →
      feed_id_to_perp_market_index table f = none) := by
  constructor
  · intro m f hmf
    unfold perp_market_index_to_feed_id at hmf
    cases hfind : table.find? (fun e => e.1 == m) with
    | none => rw [hfind] at hmf; cases hmf
    | some p =>
      rw [hfind] at hmf
      have hp_mem : p ∈ table := List.mem_of_find?_eq_some hfind
      have hp1 : p.1 = m := by
        have := List.find?_some hfind
        simpa using this
      have hpf : p.2 = f := Option.some.inj hmf
      cases hq : table.find? (fun e => e.2 == f) with
      | none =>
        exfalso
        rw [List.find?_eq_none] at hq
        exact hq p hp_mem (by simp [hpf])
      | some q =>
        have hq_mem : q ∈ table := List.mem_of_find?_eq_some hq
        have hq2 : q.2 = f := by
          have := List.find?_some hq
          simpa using this
        have hqp : q = p :=
          List.inj_on_of_nodup_map hnd hq_mem hp_mem (by rw [hq2, hpf])
        unfold feed_id_to_perp_market_index
        rw [hq]
        simp [hqp, hp1]
  · intro f hf
    have hnone : table.find? (fun e => e.2 == f) = none := by
      rw [List.find?_eq_none]
      intro x hx hbeq
      exact hf (by
        have hx2 : x.2 = f := by simpa using hbeq
        exact hx2 ▸ List.mem_map_of_mem Prod.snd hx)
    simp [feed_id_to_perp_market_index, hnone]

/-- C10 witness: with the concrete table pairing market 0 with feed 6, feed
6 maps back to market 0 and the unknown feed 99999 maps to absent. -/
theorem pyth_lazer_mapping_partial_inverse_witness :
    feed_id_to_perp_market_index [(0, 6)] 6 = some 0 ∧
    feed_id_to_perp_market_index [(0, 6)] 99999 = none :=
  ⟨(pyth_lazer_mapping_partial_inverse [(0, 6)] (by decide)).1 0 6 (by decide),
   (pyth_lazer_mapping_partial_inverse [(0, 6)] (by decide)).2 99999 (by decide)⟩
